import Mathlib

/-!
Shallow embedding of the contrail-gremlin neutron gateway and its gremlin
backend (files `gremlin-neutron` main/server code and the `gremlin` backend
package).  Go maps are modelled as association lists (`List (String × _)`)
with Go assignment semantics (`mapInsert`: replace in place or append);
machine side effects (sends to gremlin-server, HTTP upstream calls, JSON
body parsing) are modelled as oracle functions carried in a `Store` /
`AppModel` record, and every store interaction is recorded in an explicit
trace of `SendCall`s so that "no store call is made" is a provable
statement.
-/

/-- Go `interface{}` values bound into gremlin queries / stored in
vertex and edge properties.  `null` models Go `nil`. -/
inductive GValue where
  | null
  | bool (b : Bool)
  | num (n : Int)
  | str (s : String)
deriving DecidableEq, Repr

/-- Go map assignment `m[k] = v` on an association-list representation:
replace the existing entry for `k` in place, or append a new one. -/
def mapInsert {β : Type} : List (String × β) → String → β → List (String × β)
  | [], k, v => [(k, v)]
  | (k', v') :: rest, k, v =>
    if k' = k then (k, v) :: rest else (k', v') :: mapInsert rest k v

/-- Named parameter bindings of a gremlin request (`gremlin.Bind`,
a Go `map[string]interface{}`). -/
abbrev GBind := List (String × GValue)

/-- `strings.Replace(s, ".", "_", -1)`: replace every dot by an underscore
(single-character pattern, so a character map). -/
def replaceDots (s : String) : String :=
  ⟨s.data.map (fun c => if c = '.' then '_' else c)⟩

/-- Lexicographic comparison of character lists (byte-wise string `<=` as
Go's `sort` by `propNames[i] < propNames[j]` orders keys; written as a
structurally recursive Boolean so that the kernel can evaluate it). -/
def charListLe : List Char → List Char → Bool
  | [], _ => true
  | _ :: _, [] => false
  | a :: as, b :: bs => if a < b then true else if b < a then false else charListLe as bs

/-- Lexicographic `<=` on strings. -/
def strLeB (a b : String) : Bool := charListLe a.data b.data

/-- Synthetic parameter name used by `vertexPropertiesQuery`:
`fmt.Sprintf("_%s_%d", strings.Replace(propName, ".", "_", -1), i)`. -/
def vBindName (propName : String) (i : Nat) : String :=
  "_" ++ replaceDots propName ++ "_" ++ Nat.repr i

/-- Synthetic parameter name used by `edgePropertiesQuery`:
`fmt.Sprintf("_%s", strings.Replace(propName, ".", "_", -1))`. -/
def eBindName (propName : String) : String :=
  "_" ++ replaceDots propName

/-- Vertex property map: name → ordered list of values
(Go `map[string][]Property`; `Property.Value` is the opaque value). -/
abbrev VProps := List (String × List GValue)

/-- Edge property map: name → single value (Go `map[string]Property`). -/
abbrev EProps := List (String × GValue)

/-- The lexicographically sorted key list of a vertex property map.
The source collects the map keys and sorts them with
`sort.SliceStable(propNames, func(i, j int) bool { return propNames[i] < propNames[j] })`;
a stable sort by strict `<` yields the nondecreasing enumeration of the keys. -/
def vertexSortedNames (propList : VProps) : List String :=
  List.insertionSort (fun a b => strLeB a b = true) (propList.map Prod.fst)

/-- The script piece the vertex generator writes for the value at index
`i` of property `propName` whose value list has length `len`: the
`buffer.WriteString` sequence `.property(`, optional `list,`, the quoted
name, the synthetic parameter name, `)`. -/
def vertexPropPiece (propName : String) (len : Nat) (i : Nat) : String :=
  ".property(" ++ (if len > 1 then "list," else "") ++
    "'" ++ propName ++ "'," ++ vBindName propName i ++ ")"

/-- `vertexPropertiesQuery` (gremlin backend): emits, for the keys in
lexicographic order and for each value index, a `.property(...)` script
piece bound to `vBindName`, marking `list,` cardinality when the property
has more than one value.  The string buffer and the binding map are built
in one pass, as in the source loop. -/
def vertexPropertiesQuery (propList : VProps) : String × GBind :=
  (vertexSortedNames propList).foldl
    (fun acc propName =>
      match propList.lookup propName with
      | none => acc
      | some values =>
        values.enum.foldl
          (fun acc2 iv =>
            (acc2.1 ++ vertexPropPiece propName values.length iv.1,
             mapInsert acc2.2 (vBindName propName iv.1) iv.2))
          acc)
    ("", [])

/-- The non-null keys of an edge property map, in map-iteration order:
`for name, prop := range propList { if prop.Value != nil { ... append(name) } }`. -/
def edgeNonNullNames (propList : EProps) : List String :=
  (propList.filter (fun p => p.2 ≠ GValue.null)).map Prod.fst

/-- The lexicographically sorted non-null key list of an edge property map
(same `sort.SliceStable` by `<` as the vertex generator). -/
def edgeSortedNames (propList : EProps) : List String :=
  List.insertionSort (fun a b => strLeB a b = true) (edgeNonNullNames propList)

/-- The script piece the edge generator writes for property `propName`:
`.property(`, the quoted name, the synthetic parameter name, `)`. -/
def edgePropPiece (propName : String) : String :=
  ".property(" ++ "'" ++ propName ++ "'," ++ eBindName propName ++ ")"

/-- `edgePropertiesQuery` (gremlin backend): same ordering discipline as
the vertex generator, but silently excludes null-valued properties and
supports a single value per name. -/
def edgePropertiesQuery (propList : EProps) : String × GBind :=
  (edgeSortedNames propList).foldl
    (fun acc propName =>
      match propList.lookup propName with
      | none => acc
      | some v =>
        (acc.1 ++ edgePropPiece propName,
         mapInsert acc.2 (eBindName propName) v))
    ("", [])

/-- Modelled from the spec (struct declared outside the provided sources;
fields taken from spec section 3 and from every use in the backend code):
an edge is an ordered pair of endpoint ids with a label, optional endpoint
labels used for stub creation, and a single-valued property map. -/
structure Edge where
  OutV : String
  OutVLabel : String
  InV : String
  InVLabel : String
  Label : String
  Properties : EProps
deriving DecidableEq, Repr

/-- Modelled from the spec (struct declared outside the provided sources):
a vertex has an id, a label, a multi-valued property map and its outgoing /
incoming edges grouped by label. -/
structure Vertex where
  ID : String
  Label : String
  Properties : VProps
  OutE : List (String × List Edge)
  InE : List (String × List Edge)
deriving DecidableEq, Repr

/-- The edge-identity test of `diffVertexEdges`:
`l1.InV == l2.InV && l1.OutV == l2.OutV && l1.Label == l2.Label`. -/
def sameEdgeId (l1 l2 : Edge) : Bool :=
  l1.InV == l2.InV && l1.OutV == l2.OutV && l1.Label == l2.Label

/-- `cmp.Equal` on two edge property maps: deep equality as maps,
independent of entry order (equal key sets, equal values). -/
def propsEqual (p1 p2 : EProps) : Bool :=
  p1.all (fun kv => p2.lookup kv.1 == some kv.2) &&
  p2.all (fun kv => p1.lookup kv.1 == some kv.2)

/-- The desired edge set of a vertex as assembled by `diffVertexEdges`:
all outgoing edge collections concatenated, then all incoming ones. -/
def desiredEdges (v : Vertex) : List Edge :=
  (v.OutE.map Prod.snd).flatten ++ (v.InE.map Prod.snd).flatten

/-- The pure core of `diffVertexEdges`, given the desired edges and the
current edges read from the store.  The source's outer loops append in
list order and the inner loops break at the first identity match, which is
exactly `List.filter` over `List.find?`. -/
def edgeDiff (vertexEdges currentEdges : List Edge) :
    List Edge × List Edge × List Edge :=
  let toAdd := vertexEdges.filter
    (fun l1 => (currentEdges.find? (fun l2 => sameEdgeId l1 l2)).isNone)
  let toUpdate := vertexEdges.filter
    (fun l1 =>
      match currentEdges.find? (fun l2 => sameEdgeId l1 l2) with
      | some l2 => !propsEqual l1.Properties l2.Properties
      | none => false)
  let toRemove := currentEdges.filter
    (fun l1 => (vertexEdges.find? (fun l2 => sameEdgeId l1 l2)).isNone)
  (toAdd, toUpdate, toRemove)

/-- Gremlin server errors (error values returned by `client.Send`). -/
inductive GErr where
  | invalidRequestArguments
  | transport (msg : String)
  | other (msg : String)
deriving DecidableEq, Repr

/-- One recorded store interaction: the script text and its bindings. -/
abbrev SendCall := String × GBind

/-- The store oracles seen by the backend: `send` is `b.client.Send`
(script + bindings to result bytes or error), `decodeEdges` is
`json.Unmarshal` of a result into an edge list (`none` = unmarshal error,
which the source ignores, leaving the list nil). -/
structure Store where
  send : String → GBind → Except GErr String
  decodeEdges : String → Option (List Edge)

/-- Errors surfaced by the vertex operations: the sentinel
`ErrIncompleteVertex` or an underlying store error. -/
inductive VErr where
  | incomplete
  | store (e : GErr)
deriving DecidableEq, Repr

/-- The fixed script text of `CreateEdge` for the ref/parent case
(`e.OutVLabel == ""`). -/
def createEdgeQueryOut : String :=
  "g.V(_outv).as('outv').coalesce(\n\t\t\tg.V(_inv),\n\t\t\tg.addV(_inv_label)\n\t\t\t .property(id, _inv)\n\t\t\t .property('fq_name', ['_missing'])\n\t\t\t .property('_missing', true)\n\t\t\t .property('deleted', 0)\n\t\t).addE(_label).from('outv')"

/-- The fixed script text of `CreateEdge` for the children/backref case
(`e.InVLabel == ""`). -/
def createEdgeQueryIn : String :=
  "g.V(_inv).as('inv').coalesce(\n\t\t\tg.V(_outv),\n\t\t\tg.addV(_outv_label)\n\t\t\t .property(id, _outv)\n\t\t\t .property('fq_name', ['_missing'])\n\t\t\t .property('_missing', true)\n\t\t\t .property('deleted', 0)\n\t\t).addE(_label).to('inv')"

/-- The single send issued by `CreateEdge`: property fragment and bindings
from `edgePropertiesQuery`, endpoint/label bindings added afterwards, and
the query chosen by which endpoint label is empty (`var query string` with
two successive `if`s, the second overwriting the first). -/
def createEdgeCall (e : Edge) : SendCall :=
  let pb := edgePropertiesQuery e.Properties
  let bindings :=
    mapInsert (mapInsert (mapInsert (mapInsert (mapInsert pb.2
      "_outv" (GValue.str e.OutV))
      "_outv_label" (GValue.str e.OutVLabel))
      "_inv" (GValue.str e.InV))
      "_inv_label" (GValue.str e.InVLabel))
      "_label" (GValue.str e.Label)
  let query := if e.OutVLabel = "" then createEdgeQueryOut ++ pb.1 ++ ".iterate()" else ""
  let query := if e.InVLabel = "" then createEdgeQueryIn ++ pb.1 ++ ".iterate()" else query
  (query, bindings)

/-- The fixed script text of `UpdateEdge` before the property fragment. -/
def updateEdgeQueryHead : String :=
  "g.V(_inv).bothE().where(otherV().hasId(_outv))\n\t\t\t   .sideEffect(properties().drop())"

/-- The single send issued by `UpdateEdge`: drop all properties of the
edges between the two endpoint ids, then rewrite them. -/
def updateEdgeCall (e : Edge) : SendCall :=
  let pb := edgePropertiesQuery e.Properties
  let bindings := mapInsert (mapInsert pb.2 "_inv" (GValue.str e.InV)) "_outv" (GValue.str e.OutV)
  (updateEdgeQueryHead ++ pb.1 ++ ".iterate()", bindings)

/-- The single send issued by `DeleteEdge`. -/
def deleteEdgeCall (e : Edge) : SendCall :=
  ("g.V(_inv).bothE().where(otherV().hasId(_outv)).drop()",
   [("_inv", GValue.str e.InV), ("_outv", GValue.str e.OutV)])

/-- `CreateEdge`: one send; the error, if any, is returned as is. -/
def CreateEdge (st : Store) (e : Edge) : Except GErr Unit × List SendCall :=
  let c := createEdgeCall e
  match st.send c.1 c.2 with
  | .error err => (.error err, [c])
  | .ok _ => (.ok (), [c])

/-- `UpdateEdge`: one send; the error, if any, is returned as is. -/
def UpdateEdge (st : Store) (e : Edge) : Except GErr Unit × List SendCall :=
  let c := updateEdgeCall e
  match st.send c.1 c.2 with
  | .error err => (.error err, [c])
  | .ok _ => (.ok (), [c])

/-- `DeleteEdge`: one send; the error, if any, is returned as is. -/
def DeleteEdge (st : Store) (e : Edge) : Except GErr Unit × List SendCall :=
  let c := deleteEdgeCall e
  match st.send c.1 c.2 with
  | .error err => (.error err, [c])
  | .ok _ => (.ok (), [c])

/-- `currentVertexEdges`: read all edges touching the vertex id, fresh
from the store; a `json.Unmarshal` failure is ignored (edge list nil). -/
def currentVertexEdges (st : Store) (v : Vertex) :
    Except GErr (List Edge) × List SendCall :=
  let q := "g.V(_id).bothE()"
  let b : GBind := [("_id", GValue.str v.ID)]
  match st.send q b with
  | .error e => (.error e, [(q, b)])
  | .ok data => (.ok ((st.decodeEdges data).getD []), [(q, b)])

/-- `diffVertexEdges`: read the current edges, then the three-way diff of
desired (outgoing ++ incoming) against current. -/
def diffVertexEdges (st : Store) (v : Vertex) :
    Except GErr (List Edge × List Edge × List Edge) × List SendCall :=
  let (r, calls) := currentVertexEdges st v
  match r with
  | .error e => (.error e, calls)
  | .ok current => (.ok (edgeDiff (desiredEdges v) current), calls)

/-- One loop of `updateVertexEdges`: apply `act` to each edge in order,
aborting at the first error; the calls of every attempted operation
(including the failing one) are recorded. -/
def runEdgeLoop (st : Store) (act : Store → Edge → Except GErr Unit × List SendCall) :
    List Edge → Except GErr Unit × List SendCall
  | [] => (.ok (), [])
  | e :: rest =>
    let (r, c) := act st e
    match r with
    | .error err => (.error err, c)
    | .ok _ =>
      let (r2, cs) := runEdgeLoop st act rest
      (r2, c ++ cs)

/-- `updateVertexEdges`: diff, then all adds (`CreateEdge`), then all
updates (`UpdateEdge`), then all removals (`DeleteEdge`); the first error
of any phase is returned and ends the pass. -/
def updateVertexEdges (st : Store) (v : Vertex) : Except GErr Unit × List SendCall :=
  let (r, calls) := diffVertexEdges st v
  match r with
  | .error e => (.error e, calls)
  | .ok (toAdd, toUpdate, toRemove) =>
    let (r1, c1) := runEdgeLoop st CreateEdge toAdd
    match r1 with
    | .error e => (.error e, calls ++ c1)
    | .ok _ =>
      let (r2, c2) := runEdgeLoop st UpdateEdge toUpdate
      match r2 with
      | .error e => (.error e, calls ++ c1 ++ c2)
      | .ok _ =>
        let (r3, c3) := runEdgeLoop st DeleteEdge toRemove
        (r3, calls ++ c1 ++ c2 ++ c3)

/-- The fixed script text of the `UpdateVertex` upsert. -/
def updateVertexQueryHead : String :=
  "g.V().hasId(_id).fold().\n\t\t\t  coalesce(unfold().sideEffect(properties().drop()),\n\t\t\t\t\t   addV(_label).property(id, _id))\n\t\t\t "

/-- The single upsert send issued by `UpdateVertex` for a labelled vertex. -/
def updateVertexCall (v : Vertex) : SendCall :=
  let pb := vertexPropertiesQuery v.Properties
  let bindings := mapInsert (mapInsert pb.2 "_id" (GValue.str v.ID)) "_label" (GValue.str v.Label)
  (updateVertexQueryHead ++ pb.1 ++ ".iterate()", bindings)

/-- `UpdateVertex`: fail with the sentinel error when the label is empty
(before any store interaction); otherwise one upsert send, then edge
reconciliation for the vertex. -/
def UpdateVertex (st : Store) (v : Vertex) : Except VErr Unit × List SendCall :=
  if v.Label = "" then (.error .incomplete, [])
  else
    let c := updateVertexCall v
    match st.send c.1 c.2 with
    | .error e => (.error (.store e), [c])
    | .ok _ =>
      let (r, cs) := updateVertexEdges st v
      match r with
      | .error e => (.error (.store e), c :: cs)
      | .ok _ => (.ok (), c :: cs)

/-- `UpdateVertexProperty`: same empty-label precondition, then a single
point-property send. -/
def UpdateVertexProperty (st : Store) (v : Vertex) (name : String) (value : GValue) :
    Except VErr Unit × List SendCall :=
  if v.Label = "" then (.error .incomplete, [])
  else
    let q := "g.V(_id).property(_name, _value).iterate()"
    let b : GBind := [("_id", GValue.str v.ID), ("_name", GValue.str name), ("_value", value)]
    match st.send q b with
    | .error e => (.error (.store e), [(q, b)])
    | .ok _ => (.ok (), [(q, b)])

/-- An edge reconciliation operation, tagged by phase. -/
inductive EdgeOp where
  | add (e : Edge)
  | update (e : Edge)
  | remove (e : Edge)
deriving DecidableEq, Repr

/-- The send call a reconciliation operation issues. -/
def opCall : EdgeOp → SendCall
  | .add e => createEdgeCall e
  | .update e => updateEdgeCall e
  | .remove e => deleteEdgeCall e

/-- The error, if any, that the store returns for an operation's call. -/
def opFails (st : Store) (op : EdgeOp) : Option GErr :=
  match st.send (opCall op).1 (opCall op).2 with
  | .error e => some e
  | .ok _ => none

/-- Sequential runner over a flat operation list: attempt each operation
in order, return at the first store error, record attempted calls. -/
def runOps (st : Store) : List EdgeOp → Except GErr Unit × List SendCall
  | [] => (.ok (), [])
  | op :: rest =>
    match st.send (opCall op).1 (opCall op).2 with
    | .error e => (.error e, [opCall op])
    | .ok _ =>
      let (r, cs) := runOps st rest
      (r, opCall op :: cs)

/-- A JSON value, as produced by `json.Unmarshal` into `interface{}`. -/
inductive JValue where
  | null
  | bool (b : Bool)
  | num (n : Int)
  | str (s : String)
  | arr (xs : List JValue)
  | obj (fields : List (String × JValue))
deriving Repr

/-- Decoded request filters (`RequestFilters`, a Go
`map[string][]interface{}`). -/
abbrev RequestFilters := List (String × List JValue)

/-- Outcome of running a piece of Go code that may panic: here the
unchecked type assertion `fv.([]interface{})`. -/
inductive GoResult (α : Type) where
  | ok (a : α)
  | panic

/-- The inner loop of `RequestFilters.UnmarshalJSON` for a map-shaped
filter value: each inner key is promoted to a top-level filter, and the
inner value is asserted to be a list — a non-list inner value makes the
unchecked assertion `fv.([]interface{})` panic. -/
def promoteInner (f : RequestFilters) : List (String × JValue) → GoResult RequestFilters
  | [] => .ok f
  | (fk, fv) :: rest =>
    match fv with
    | .arr l => promoteInner (mapInsert f fk l) rest
    | _ => .panic

/-- The main loop of `RequestFilters.UnmarshalJSON` over the decoded
top-level map: map-shaped values are un-nested one level, list-shaped
values pass through, any other shape is logged and dropped. -/
def applyFilterEntries (f : RequestFilters) : List (String × JValue) → GoResult RequestFilters
  | [] => .ok f
  | (k, v) :: rest =>
    match v with
    | .obj inner =>
      match promoteInner f inner with
      | .panic => .panic
      | .ok f2 => applyFilterEntries f2 rest
    | .arr l => applyFilterEntries (mapInsert f k l) rest
    | _ => applyFilterEntries f rest

/-- `RequestFilters.UnmarshalJSON`: unmarshal the raw bytes into a
`map[string]interface{}` — on unmarshal failure the error is swallowed
(`return nil`) and the filter map stays empty — then process each entry. -/
def unmarshalRequestFilters (data : JValue) : GoResult RequestFilters :=
  match data with
  | .obj entries => applyFilterEntries [] entries
  | _ => .ok []

/-- Context of an inbound request (`RequestContext`). -/
structure RequestContext where
  type : String
  operation : String
  tenantID : String
  userID : String
  requestID : String
  isAdmin : Bool

/-- Data of an inbound request (`RequestData`). -/
structure RequestData where
  id : String
  fields : List String
  filters : RequestFilters

/-- An inbound request from the neutron plugin (`Request`). -/
structure Request where
  context : RequestContext
  data : RequestData

/-- An HTTP request as the gateway model sees it: method, path, headers
and the readable body. -/
structure HttpReq where
  method : String
  path : String
  headers : List (String × String)
  body : String
deriving DecidableEq, Repr

/-- An HTTP response: status code, headers, body. -/
structure HttpResp where
  status : Nat
  headers : List (String × String)
  body : String
deriving DecidableEq, Repr

/-- The shared application state (`App`) with its collaborators as
oracles: `upstream` is `contrailClient.Do`, `parse` is `json.Unmarshal`
of a request body into a `Request`, `connected` is
`backend.IsConnected()` at the time of the call. -/
structure AppModel where
  connected : Bool
  contrailAPIURL : String
  upstream : HttpReq → Except String HttpResp
  methods : List (String × (Request → Except String String))
  parse : String → Except String Request

/-- The request `App.forward` builds for the upstream service:
`http.NewRequest("POST", a.contrailAPIURL + r.URL.Path, body)` followed by
`copyHeaders(r.Header, req.Header)` — a hard-coded POST method, the
original path appended to the configured base, the original headers, and
the given body. -/
def buildForwardReq (base : String) (r : HttpReq) (body : String) : HttpReq :=
  { method := "POST"
    path := base ++ r.path
    headers := r.headers
    body := body }

/-- `App.forward`: send the built request upstream; on success copy the
upstream headers, status code and body back to the caller; on a client
error answer 503 with the error text (`http.Error`). -/
def forward (a : AppModel) (r : HttpReq) (body : String) : HttpResp :=
  let req := buildForwardReq a.contrailAPIURL r body
  match a.upstream req with
  | .error e =>
    { status := 503
      headers := [("Content-Type", "text/plain; charset=utf-8")]
      body := e ++ "\n" }
  | .ok resp =>
    { status := resp.status
      headers := resp.headers
      body := resp.body }

/-- `App.handler`: when disconnected, forward the original request body;
otherwise parse the body, look up a handler under the key
`operation + "_" + type`, run it (500 with the message on handler error,
JSON body on success), or forward the already-read body when no handler
is registered. -/
def handler (a : AppModel) (r : HttpReq) : HttpResp :=
  if !a.connected then forward a r r.body
  else
    match a.parse r.body with
    | .error e =>
      { status := 400
        headers := [("Content-Type", "text/plain; charset=utf-8")]
        body := e ++ "\n" }
    | .ok req =>
      match a.methods.lookup (req.context.operation ++ "_" ++ req.context.type) with
      | some h =>
        match h req with
        | .error e => { status := 500, headers := [], body := e }
        | .ok res =>
          { status := 200
            headers := [("Content-Type", "application/json; charset=utf-8")]
            body := res }
      | none => forward a r r.body

/-- Connection-lifecycle state of `ServerBackend`: the atomically stored
`connected` flag. -/
structure SBState where
  connected : Bool
deriving DecidableEq, Repr

/-- `NewServerBackend` stores `false` initially. -/
def initialSBState : SBState := ⟨false⟩

/-- A transport-lifecycle notification from the gremlin client. -/
inductive ConnEvent where
  | connectedEv
  | disconnectedEv
deriving DecidableEq, Repr

/-- `ServerBackend.onConnected` / `ServerBackend.onDisconnected`: each
notification stores the corresponding flag value. -/
def applyConnEvent (s : SBState) : ConnEvent → SBState
  | .connectedEv => { s with connected := true }
  | .disconnectedEv => { s with connected := false }

/-- State after a sequence of transport notifications. -/
def applyConnEvents (s : SBState) (evs : List ConnEvent) : SBState :=
  evs.foldl applyConnEvent s

/-- `ServerBackend.IsConnected`: read the stored flag. -/
def sbIsConnected (s : SBState) : Bool := s.connected

/-- `ServerBackend.Send`: pure delegation to `b.client.Send`. -/
def sbSend (clientSend : String → GBind → Except GErr String)
    (q : String) (b : GBind) : Except GErr String :=
  clientSend q b

/-- Concatenation of a list of script pieces (used to state the shape of
the generated fragments). -/
def strConcat : List String → String
  | [] => ""
  | s :: rest => s ++ strConcat rest

/-- Specification shape of the vertex fragment, following the spec text:
iterate the property names in lexicographic order and, for each value at
index `i` of the name's value list, emit one property-set piece. -/
def vertexFragmentSpec (l : VProps) : String :=
  strConcat ((vertexSortedNames l).map (fun p =>
    match l.lookup p with
    | none => ""
    | some vs => strConcat (vs.enum.map (fun iv => vertexPropPiece p vs.length iv.1))))

/-- Specification shape of the vertex bindings: one entry per (name,
value-index), named by the synthetic parameter name, in the same order. -/
def vertexBindingsSpec (l : VProps) : List (String × GValue) :=
  ((vertexSortedNames l).map (fun p =>
    match l.lookup p with
    | none => []
    | some vs => vs.enum.map (fun iv => (vBindName p iv.1, iv.2)))).flatten

/-- Specification shape of the edge fragment: one piece per non-null
property name in lexicographic order. -/
def edgeFragmentSpec (l : EProps) : String :=
  strConcat ((edgeSortedNames l).map edgePropPiece)

/-- Specification shape of the edge bindings: one entry per non-null
property name in lexicographic order. -/
def edgeBindingsSpec (l : EProps) : List (String × GValue) :=
  (edgeSortedNames l).filterMap (fun p => (l.lookup p).map (fun v => (eBindName p, v)))

/-- Whether `pat` occurs as a contiguous character run of `l`. -/
def charsHaveRun (pat : List Char) : List Char → Bool
  | [] => decide (pat = [])
  | c :: cs => pat.isPrefixOf (c :: cs) || charsHaveRun pat cs

/-- Whether `pat` occurs as a substring of `s`. -/
def strHasRun (s pat : String) : Bool := charsHaveRun pat.data s.data

/-- Modelled from the spec (gremlin traversal semantics, an external
collaborator): the edges selected by the fixed step chain
`g.V(_inv).bothE().where(otherV().hasId(_outv))` — edges incident to the
in-vertex whose other endpoint is the out-vertex, in either direction. -/
def endpointPairSelects (inv outv : String) (e0 : Edge) : Bool :=
  (e0.InV == inv && e0.OutV == outv) || (e0.OutV == inv && e0.InV == outv)

/-- A store whose sends always succeed with an empty result and whose
edge decoding fails (leaving the current edge list empty). -/
def stubStore : Store :=
  { send := fun _ _ => .ok ""
    decodeEdges := fun _ => none }

/-- Fixture: the current stored edge of the spec's diff example,
`(A,B,"ref",{p:1})`. -/
def edgeAB1 : Edge :=
  { OutV := "A", OutVLabel := "", InV := "B", InVLabel := ""
    Label := "ref", Properties := [("p", GValue.num 1)] }

/-- Fixture: the desired replacement edge `(A,B,"ref",{p:2})`. -/
def edgeAB2 : Edge :=
  { OutV := "A", OutVLabel := "", InV := "B", InVLabel := ""
    Label := "ref", Properties := [("p", GValue.num 2)] }

/-- Fixture: the desired new edge `(A,C,"ref",{})`. -/
def edgeAC : Edge :=
  { OutV := "A", OutVLabel := "", InV := "C", InVLabel := ""
    Label := "ref", Properties := [] }

/-- Fixture: a vertex whose declared outgoing edges are the spec's diff
example and whose store reads return `[edgeAB1]`. -/
def vertexW : Vertex :=
  { ID := "A", Label := "virtual_network", Properties := []
    OutE := [("ref", [edgeAB2, edgeAC])], InE := [] }

/-- Fixture: a store that reports `[edgeAB1]` as the current edges. -/
def storeW : Store :=
  { send := fun _ _ => .ok ""
    decodeEdges := fun _ => some [edgeAB1] }

/-- Fixture: a vertex with an empty label. -/
def vertexNoLabel : Vertex :=
  { ID := "X", Label := "", Properties := [("name", [GValue.str "n"])]
    OutE := [], InE := [] }

/-- Fixture: an edge carrying one property, used to exhibit the extra
property binding of `UpdateEdge`. -/
def edgePropW : Edge :=
  { OutV := "A", OutVLabel := "", InV := "B", InVLabel := ""
    Label := "ref", Properties := [("p", GValue.bool true)] }

/-- Fixture: an edge property map with two distinct names that collide
after dot-to-underscore replacement. -/
def collidingEProps : EProps :=
  [("a.b", GValue.bool true), ("a_b", GValue.bool false)]

/-- Fixture: an upstream oracle that answers 200 and echoes the method of
the request it received as the response body. -/
def upstreamEcho : HttpReq → Except String HttpResp :=
  fun q => .ok { status := 200, headers := q.headers, body := q.method }

/-- Fixture: a disconnected gateway whose upstream echoes the forwarded
method. -/
def appDisconnected : AppModel :=
  { connected := false
    contrailAPIURL := "http://localhost:8082"
    upstream := upstreamEcho
    methods := []
    parse := fun _ => .error "unused" }

/-- Fixture: a GET request to the gateway. -/
def getReq : HttpReq :=
  { method := "GET", path := "/neutron/ports"
    headers := [("X-Auth-Token", "t")], body := "B" }

/-- Fixture: a client send that always fails with a transport error. -/
def failingClientSend : String → GBind → Except GErr String :=
  fun _ _ => .error (GErr.transport "timeout")

theorem charListLe_cons_iff (a b : Char) (as bs : List Char) :
    charListLe (a :: as) (b :: bs) = true ↔ a < b ∨ (a = b ∧ charListLe as bs = true) := by
  by_cases hab : a < b
  · simp [charListLe, hab]
  · by_cases hba : b < a
    · have hne : a ≠ b := fun h => lt_irrefl a (h ▸ hba)
      simp [charListLe, hab, hba, hne]
    · have heq : a = b := le_antisymm (not_lt.mp hba) (not_lt.mp hab)
      simp [charListLe, hab, hba, heq]

theorem charListLe_total : ∀ x y : List Char, charListLe x y = true ∨ charListLe y x = true
  | [], _ => Or.inl rfl
  | _ :: _, [] => Or.inr rfl
  | a :: as, b :: bs => by
    rw [charListLe_cons_iff, charListLe_cons_iff]
    rcases lt_trichotomy a b with h | h | h
    · exact Or.inl (Or.inl h)
    · rcases charListLe_total as bs with h2 | h2
      · exact Or.inl (Or.inr ⟨h, h2⟩)
      · exact Or.inr (Or.inr ⟨h.symm, h2⟩)
    · exact Or.inr (Or.inl h)

theorem charListLe_trans : ∀ x y z : List Char,
    charListLe x y = true → charListLe y z = true → charListLe x z = true
  | [], _, _, _, _ => rfl
  | _ :: _, [], _, h, _ => by simp [charListLe] at h
  | _ :: _, _ :: _, [], _, h => by simp [charListLe] at h
  | a :: as, b :: bs, c :: cs, h1, h2 => by
    rw [charListLe_cons_iff] at h1 h2 ⊢
    rcases h1 with h1 | ⟨rfl, h1⟩
    · rcases h2 with h2 | ⟨rfl, h2⟩
      · exact Or.inl (lt_trans h1 h2)
      · exact Or.inl h1
    · rcases h2 with h2 | ⟨rfl, h2⟩
      · exact Or.inl h2
      · exact Or.inr ⟨rfl, charListLe_trans as bs cs h1 h2⟩

theorem charListLe_antisymm : ∀ x y : List Char,
    charListLe x y = true → charListLe y x = true → x = y
  | [], [], _, _ => rfl
  | [], _ :: _, _, h => by simp [charListLe] at h
  | _ :: _, [], h, _ => by simp [charListLe] at h
  | a :: as, b :: bs, h1, h2 => by
    rw [charListLe_cons_iff] at h1 h2
    rcases h1 with h1 | ⟨rfl, h1⟩
    · rcases h2 with h2 | ⟨rfl, h2⟩
      · exact absurd h2 (asymm h1)
      · exact absurd h1 (lt_irrefl _)
    · rcases h2 with h2 | ⟨_, h2⟩
      · exact absurd h2 (lt_irrefl _)
      · rw [charListLe_antisymm as bs h1 h2]

instance : IsTotal String (fun a b => strLeB a b = true) :=
  ⟨fun a b => charListLe_total a.data b.data⟩

instance : IsTrans String (fun a b => strLeB a b = true) :=
  ⟨fun a b c => charListLe_trans a.data b.data c.data⟩

instance : IsAntisymm String (fun a b => strLeB a b = true) :=
  ⟨fun a b h1 h2 => congrArg String.mk (charListLe_antisymm a.data b.data h1 h2)⟩

theorem lookup_isSome_of_mem_keys {β : Type} {l : List (String × β)} {k : String}
    (h : k ∈ l.map Prod.fst) : ∃ v, l.lookup k = some v := by
  induction l with
  | nil => simp at h
  | cons kv rest ih =>
    obtain ⟨k', v'⟩ := kv
    by_cases hk : k = k'
    · exact ⟨v', by simp [List.lookup, hk]⟩
    · have hbf : (k == k') = false := beq_eq_false_iff_ne.mpr hk
      have hm : k ∈ rest.map Prod.fst := by
        simpa [hk] using h
      rcases ih hm with ⟨v, hv⟩
      exact ⟨v, by simp [List.lookup, hbf, hv]⟩

theorem lookup_eq_of_perm {β : Type} {l₁ l₂ : List (String × β)}
    (h : l₁.Perm l₂) (nd : (l₁.map Prod.fst).Nodup) (k : String) :
    l₁.lookup k = l₂.lookup k := by
  induction h with
  | nil => rfl
  | cons x _ ih =>
    obtain ⟨kx, vx⟩ := x
    simp only [List.map_cons, List.nodup_cons] at nd
    by_cases hk : k = kx
    · simp [List.lookup, hk]
    · have hbf : (k == kx) = false := beq_eq_false_iff_ne.mpr hk
      simp [List.lookup, hbf, ih nd.2]
  | swap x y t =>
    obtain ⟨kx, vx⟩ := x
    obtain ⟨ky, vy⟩ := y
    simp only [List.map_cons, List.nodup_cons, List.mem_cons] at nd
    have hxy : kx ≠ ky := fun hh => nd.1 (Or.inl hh.symm)
    by_cases hk : k = kx
    · have h1 : (k == kx) = true := beq_iff_eq.mpr hk
      have h2 : (k == ky) = false := beq_eq_false_iff_ne.mpr (fun hh => hxy (hk ▸ hh.symm).symm)
      simp [List.lookup, h1, h2]
    · have h1 : (k == kx) = false := beq_eq_false_iff_ne.mpr hk
      by_cases hk2 : k = ky
      · have h2 : (k == ky) = true := beq_iff_eq.mpr hk2
        simp [List.lookup, h1, h2]
      · have h2 : (k == ky) = false := beq_eq_false_iff_ne.mpr hk2
        simp [List.lookup, h1, h2]
  | trans h1 _ ih1 ih2 =>
    have nd2 := (h1.map Prod.fst).nodup_iff.mp nd
    exact (ih1 nd).trans (ih2 nd2)

theorem mapInsert_of_notMem {β : Type} {l : List (String × β)} {k : String} (v : β)
    (h : k ∉ l.map Prod.fst) : mapInsert l k v = l ++ [(k, v)] := by
  induction l with
  | nil => rfl
  | cons kv rest ih =>
    obtain ⟨k', v'⟩ := kv
    simp only [List.map_cons, List.mem_cons] at h
    push_neg at h
    have hne : ¬ k' = k := fun hh => h.1 hh.symm
    simp [mapInsert, hne, ih h.2]

theorem mem_of_mem_mapInsert {β : Type} {l : List (String × β)} {k : String} {v : β}
    {kv : String × β} (h : kv ∈ mapInsert l k v) : kv ∈ l ∨ kv = (k, v) := by
  induction l with
  | nil => simpa [mapInsert] using h
  | cons kv' rest ih =>
    obtain ⟨k', v'⟩ := kv'
    by_cases hk : k' = k
    · rcases List.mem_cons.mp (by simpa [mapInsert, hk] using h) with h1 | h1
      · exact Or.inr h1
      · exact Or.inl (List.mem_cons_of_mem _ h1)
    · rcases List.mem_cons.mp (by simpa [mapInsert, hk] using h) with h1 | h1
      · exact Or.inl (h1 ▸ List.mem_cons_self _ _)
      · rcases ih h1 with h2 | h2
        · exact Or.inl (List.mem_cons_of_mem _ h2)
        · exact Or.inr h2

theorem keys_mapInsert_subset {β : Type} {l : List (String × β)} {k : String} {v : β}
    {k' : String} (h : k' ∈ (mapInsert l k v).map Prod.fst) :
    k' ∈ l.map Prod.fst ∨ k' = k := by
  rcases List.mem_map.mp h with ⟨kv, hm, hfst⟩
  rcases mem_of_mem_mapInsert hm with h1 | h1
  · exact Or.inl (hfst ▸ List.mem_map_of_mem Prod.fst h1)
  · exact Or.inr (hfst ▸ congrArg Prod.fst h1)

theorem insertionSort_strLe_eq_of_perm {l₁ l₂ : List String} (h : l₁.Perm l₂) :
    List.insertionSort (fun a b => strLeB a b = true) l₁ =
      List.insertionSort (fun a b => strLeB a b = true) l₂ :=
  List.eq_of_perm_of_sorted
    (((List.perm_insertionSort _ l₁).trans h).trans (List.perm_insertionSort _ l₂).symm)
    (List.sorted_insertionSort _ l₁) (List.sorted_insertionSort _ l₂)

theorem vertexSortedNames_eq_of_perm {l₁ l₂ : VProps} (h : l₁.Perm l₂) :
    vertexSortedNames l₁ = vertexSortedNames l₂ :=
  insertionSort_strLe_eq_of_perm (h.map Prod.fst)

theorem edgeSortedNames_eq_of_perm {l₁ l₂ : EProps} (h : l₁.Perm l₂) :
    edgeSortedNames l₁ = edgeSortedNames l₂ :=
  insertionSort_strLe_eq_of_perm ((h.filter _).map Prod.fst)

theorem vertexPropertiesQuery_congr {l₁ l₂ : VProps} (h : l₁.Perm l₂)
    (nd : (l₁.map Prod.fst).Nodup) :
    vertexPropertiesQuery l₁ = vertexPropertiesQuery l₂ := by
  unfold vertexPropertiesQuery
  rw [vertexSortedNames_eq_of_perm h]
  apply List.foldl_ext
  intro acc p _
  rw [lookup_eq_of_perm h nd p]

theorem edgePropertiesQuery_congr {l₁ l₂ : EProps} (h : l₁.Perm l₂)
    (nd : (l₁.map Prod.fst).Nodup) :
    edgePropertiesQuery l₁ = edgePropertiesQuery l₂ := by
  unfold edgePropertiesQuery
  rw [edgeSortedNames_eq_of_perm h]
  apply List.foldl_ext
  intro acc p _
  rw [lookup_eq_of_perm h nd p]

theorem str_append_nil (s : String) : s ++ "" = s := by
  cases s with
  | mk data => exact congrArg String.mk (List.append_nil data)

theorem str_nil_append (s : String) : "" ++ s = s := by
  cases s with
  | mk data => exact congrArg String.mk (List.nil_append data)

theorem foldl_piece_split {α : Type} (g : α → String)
    (h : List (String × GValue) → α → List (String × GValue)) :
    ∀ (l : List α) (step : (String × List (String × GValue)) → α → (String × List (String × GValue)))
      (hstep : ∀ acc x, x ∈ l → step acc x = (acc.1 ++ g x, h acc.2 x))
      (acc : String × List (String × GValue)),
      l.foldl step acc = (acc.1 ++ strConcat (l.map g), l.foldl h acc.2)
  | [], _, _, acc => by simp [strConcat, str_append_nil acc.1]
  | x :: xs, step, hstep, acc => by
    have hx := hstep acc x (List.mem_cons_self x xs)
    have ih := foldl_piece_split g h xs step
      (fun acc2 y hy => hstep acc2 y (List.mem_cons_of_mem x hy)) (step acc x)
    simp only [List.foldl_cons, List.map_cons, strConcat] at ih ⊢
    rw [ih, hx, String.append_assoc]

theorem vpq_go (l : VProps) :
    ∀ (names : List String) (acc : String × List (String × GValue)),
      names.foldl (fun acc propName =>
        match l.lookup propName with
        | none => acc
        | some values =>
          values.enum.foldl
            (fun acc2 iv =>
              (acc2.1 ++ vertexPropPiece propName values.length iv.1,
               mapInsert acc2.2 (vBindName propName iv.1) iv.2))
            acc) acc
      = (acc.1 ++ strConcat (names.map (fun p =>
           match l.lookup p with
           | none => ""
           | some vs => strConcat (vs.enum.map (fun iv => vertexPropPiece p vs.length iv.1)))),
         ((names.map (fun p =>
           match l.lookup p with
           | none => []
           | some vs => vs.enum.map (fun iv => (vBindName p iv.1, iv.2)))).flatten).foldl
           (fun b kv => mapInsert b kv.1 kv.2) acc.2)
  | [], acc => by simp [strConcat, str_append_nil acc.1]
  | p :: rest, acc => by
    rw [List.foldl_cons, List.map_cons, List.map_cons, strConcat, List.flatten_cons,
      List.foldl_append, vpq_go l rest]
    cases hl : l.lookup p with
    | none =>
      dsimp only
      rw [str_nil_append, List.foldl_nil]
    | some vs =>
      dsimp only
      have hinner := foldl_piece_split
        (fun iv : Nat × GValue => vertexPropPiece p vs.length iv.1)
        (fun b iv => mapInsert b (vBindName p iv.1) iv.2)
        vs.enum
        (fun acc2 iv =>
          (acc2.1 ++ vertexPropPiece p vs.length iv.1,
           mapInsert acc2.2 (vBindName p iv.1) iv.2))
        (fun _ _ _ => rfl) acc
      rw [hinner]
      dsimp only
      rw [← String.append_assoc, List.foldl_map]

theorem vertexPropertiesQuery_eq_spec (l : VProps) :
    vertexPropertiesQuery l =
      (vertexFragmentSpec l,
       (vertexBindingsSpec l).foldl (fun b kv => mapInsert b kv.1 kv.2) []) := by
  unfold vertexPropertiesQuery vertexFragmentSpec vertexBindingsSpec
  rw [vpq_go l (vertexSortedNames l) ("", []), str_nil_append]

theorem epq_go (l : EProps) :
    ∀ (names : List String) (acc : String × List (String × GValue)),
      names.foldl (fun acc propName =>
        match l.lookup propName with
        | none => acc
        | some v =>
          (acc.1 ++ edgePropPiece propName,
           mapInsert acc.2 (eBindName propName) v)) acc
      = (acc.1 ++ strConcat (names.map (fun p =>
           match l.lookup p with
           | none => ""
           | some _ => edgePropPiece p)),
         (names.filterMap (fun p => (l.lookup p).map (fun v => (eBindName p, v)))).foldl
           (fun b kv => mapInsert b kv.1 kv.2) acc.2)
  | [], acc => by simp [strConcat, str_append_nil acc.1]
  | p :: rest, acc => by
    rw [List.foldl_cons, List.map_cons, strConcat, List.filterMap_cons]
    cases hl : l.lookup p with
    | none =>
      simp only [Option.map_none']
      rw [epq_go l rest, str_nil_append]
    | some v =>
      simp only [Option.map_some']
      rw [epq_go l rest]
      dsimp only
      rw [← String.append_assoc, List.foldl_cons]

theorem edgePropertiesQuery_eq_spec (l : EProps) :
    edgePropertiesQuery l =
      (edgeFragmentSpec l,
       (edgeBindingsSpec l).foldl (fun b kv => mapInsert b kv.1 kv.2) []) := by
  unfold edgePropertiesQuery edgeFragmentSpec edgeBindingsSpec
  rw [epq_go l (edgeSortedNames l) ("", []), str_nil_append]
  have hmap : (edgeSortedNames l).map (fun p =>
      match l.lookup p with
      | none => ""
      | some _ => edgePropPiece p) = (edgeSortedNames l).map edgePropPiece := by
    apply List.map_congr_left
    intro p hp
    have hmem : p ∈ edgeNonNullNames l :=
      (List.perm_insertionSort _ (edgeNonNullNames l)).mem_iff.mp hp
    have hkeys : p ∈ l.map Prod.fst := by
      have : p ∈ (l.filter (fun q => q.2 ≠ GValue.null)).map Prod.fst := hmem
      rcases List.mem_map.mp this with ⟨kv, hkv, hfst⟩
      exact hfst ▸ List.mem_map_of_mem Prod.fst (List.mem_of_mem_filter hkv)
    rcases lookup_isSome_of_mem_keys hkeys with ⟨v, hv⟩
    rw [hv]
  rw [hmap]

theorem foldl_mapInsert_of_nodup {β : Type} :
    ∀ (pairs : List (String × β)) (b : List (String × β)),
      (pairs.map Prod.fst).Nodup →
      (∀ k ∈ pairs.map Prod.fst, k ∉ b.map Prod.fst) →
      pairs.foldl (fun b2 kv => mapInsert b2 kv.1 kv.2) b = b ++ pairs
  | [], b, _, _ => by simp
  | (k, v) :: rest, b, nd, hdisj => by
    simp only [List.map_cons, List.nodup_cons] at nd
    have hk : k ∉ b.map Prod.fst := hdisj k (by simp)
    rw [List.foldl_cons]
    dsimp only
    rw [mapInsert_of_notMem v hk,
      foldl_mapInsert_of_nodup rest (b ++ [(k, v)]) nd.2 ?_, List.append_assoc]
    · rfl
    · intro k' hk'
      rw [List.map_append, List.mem_append]
      push_neg
      refine ⟨hdisj k' (List.mem_cons_of_mem _ hk'), ?_⟩
      simp only [List.map_cons, List.map_nil, List.mem_singleton]
      exact fun hh => nd.1 (hh ▸ hk')

theorem mem_foldl_mapInsert {β : Type} :
    ∀ (pairs : List (String × β)) (b : List (String × β)) (kv : String × β),
      kv ∈ pairs.foldl (fun b2 kv2 => mapInsert b2 kv2.1 kv2.2) b →
      kv ∈ b ∨ kv ∈ pairs
  | [], _, _, h => Or.inl h
  | (k, v) :: rest, b, kv, h => by
    rw [List.foldl_cons] at h
    rcases mem_foldl_mapInsert rest (mapInsert b k v) kv h with h1 | h1
    · rcases mem_of_mem_mapInsert h1 with h2 | h2
      · exact Or.inl h2
      · exact Or.inr (h2 ▸ List.mem_cons_self _ _)
    · exact Or.inr (List.mem_cons_of_mem _ h1)

theorem lookup_eq_of_mem_nodup {β : Type} :
    ∀ {l : List (String × β)} {k : String} {v : β},
      (k, v) ∈ l → (l.map Prod.fst).Nodup → l.lookup k = some v := by
  intro l
  induction l with
  | nil => intro k v h _; simp at h
  | cons kv rest ih =>
    intro k v h nd
    obtain ⟨k', v'⟩ := kv
    simp only [List.map_cons, List.nodup_cons] at nd
    rcases List.mem_cons.mp h with h1 | h1
    · obtain ⟨rfl, rfl⟩ := Prod.mk.injEq .. ▸ h1
      simp [List.lookup]
    · have hne : k ≠ k' := by
        rintro rfl
        exact nd.1 (List.mem_map_of_mem Prod.fst h1)
      have hbf : (k == k') = false := beq_eq_false_iff_ne.mpr hne
      simp [List.lookup, hbf, ih h1 nd.2]

theorem sameEdgeId_iff (a b : Edge) :
    sameEdgeId a b = true ↔ a.InV = b.InV ∧ a.OutV = b.OutV ∧ a.Label = b.Label := by
  simp [sameEdgeId, Bool.and_eq_true, beq_iff_eq, and_assoc]

theorem sameEdgeId_symm {a b : Edge} (h : sameEdgeId a b = true) : sameEdgeId b a = true := by
  rw [sameEdgeId_iff] at h ⊢
  exact ⟨h.1.symm, h.2.1.symm, h.2.2.symm⟩

theorem sameEdgeId_trans {a b c : Edge} (h1 : sameEdgeId a b = true)
    (h2 : sameEdgeId b c = true) : sameEdgeId a c = true := by
  rw [sameEdgeId_iff] at h1 h2 ⊢
  exact ⟨h1.1.trans h2.1, h1.2.1.trans h2.2.1, h1.2.2.trans h2.2.2⟩

theorem sameEdgeId_unique :
    ∀ {ce : List Edge}, List.Pairwise (fun a b => sameEdgeId a b = false) ce →
      ∀ {e c1 c2 : Edge}, c1 ∈ ce → c2 ∈ ce →
        sameEdgeId e c1 = true → sameEdgeId e c2 = true → c1 = c2 := by
  intro ce
  induction ce with
  | nil => intro _ e c1 c2 h1; simp at h1
  | cons a t ih =>
    intro hp e c1 c2 h1 h2 s1 s2
    rcases List.pairwise_cons.mp hp with ⟨ha, ht⟩
    rcases List.mem_cons.mp h1 with h1 | h1 <;> rcases List.mem_cons.mp h2 with h2 | h2
    · rw [h1, h2]
    · have hcc : sameEdgeId c1 c2 = true := sameEdgeId_trans (sameEdgeId_symm s1) s2
      rw [h1] at hcc
      rw [ha c2 h2] at hcc
      cases hcc
    · have hcc : sameEdgeId c2 c1 = true := sameEdgeId_trans (sameEdgeId_symm s2) s1
      rw [h2] at hcc
      rw [ha c1 h1] at hcc
      cases hcc
    · exact ih ht h1 h2 s1 s2

theorem runEdgeLoop_eq_runOps (st : Store)
    (act : Store → Edge → Except GErr Unit × List SendCall) (tag : Edge → EdgeOp)
    (hact : ∀ e, act st e =
      (match st.send (opCall (tag e)).1 (opCall (tag e)).2 with
       | .error err => (.error err, [opCall (tag e)])
       | .ok _ => (.ok (), [opCall (tag e)]))) :
    ∀ es, runEdgeLoop st act es = runOps st (es.map tag)
  | [] => rfl
  | e :: rest => by
    rw [List.map_cons]
    show (let (r, c) := act st e
          match r with
          | Except.error err => (Except.error err, c)
          | Except.ok _ =>
            let (r2, cs) := runEdgeLoop st act rest
            (r2, c ++ cs)) = runOps st (tag e :: rest.map tag)
    rw [hact e, runEdgeLoop_eq_runOps st act tag hact rest, runOps]
    cases st.send (opCall (tag e)).1 (opCall (tag e)).2 with
    | error err => rfl
    | ok _ =>
      obtain ⟨r2, cs⟩ := runOps st (rest.map tag)
      rfl

theorem runOps_append (st : Store) :
    ∀ l1 l2 : List EdgeOp, runOps st (l1 ++ l2) =
      (match (runOps st l1).1 with
       | .error _ => runOps st l1
       | .ok _ => ((runOps st l2).1, (runOps st l1).2 ++ (runOps st l2).2))
  | [], l2 => by simp [runOps]
  | op :: l1, l2 => by
    rw [List.cons_append, runOps, runOps, runOps_append st l1 l2]
    cases st.send (opCall op).1 (opCall op).2 with
    | error e => rfl
    | ok _ =>
      cases h1 : (runOps st l1).1 with
      | error e => simp [h1]
      | ok _ => simp [h1]

theorem runOps_ok (st : Store) :
    ∀ ops : List EdgeOp, (∀ op ∈ ops, opFails st op = none) →
      runOps st ops = (.ok (), ops.map opCall)
  | [], _ => rfl
  | op :: rest, h => by
    have hop := h op (List.mem_cons_self _ _)
    rw [opFails] at hop
    rw [runOps]
    cases hsend : st.send (opCall op).1 (opCall op).2 with
    | error e => rw [hsend] at hop; cases hop
    | ok _ =>
      rw [runOps_ok st rest (fun p hp => h p (List.mem_cons_of_mem _ hp)), List.map_cons]

theorem runOps_first_fail (st : Store) :
    ∀ (pre : List EdgeOp) (op : EdgeOp) (post : List EdgeOp) (e : GErr),
      (∀ p ∈ pre, opFails st p = none) → opFails st op = some e →
      runOps st (pre ++ op :: post) = (.error e, (pre ++ [op]).map opCall)
  | [], op, post, e, _, hop => by
    rw [opFails] at hop
    rw [List.nil_append, runOps]
    cases hsend : st.send (opCall op).1 (opCall op).2 with
    | error err =>
      rw [hsend] at hop
      cases hop
      rfl
    | ok _ => rw [hsend] at hop; cases hop
  | p :: pre, op, post, e, hpre, hop => by
    have hp := hpre p (List.mem_cons_self _ _)
    rw [opFails] at hp
    rw [List.cons_append, runOps]
    cases hsend : st.send (opCall p).1 (opCall p).2 with
    | error err => rw [hsend] at hp; cases hp
    | ok _ =>
      rw [runOps_first_fail st pre op post e
        (fun q hq => hpre q (List.mem_cons_of_mem _ hq)) hop]
      rfl

/-- C1: the edge diff of a vertex is keyed by the identity triple
(source id, destination id, label) over Desired = outgoing ++ incoming
edges and Current = the edges read from the store: ToAdd is exactly the
desired edges with no identity match in Current, ToUpdate exactly the
desired edges with an identity match whose property maps are not deeply
equal, and ToRemove exactly the current edges with no identity match in
Desired. -/
theorem edgeDiffCharacterization :
    ∀ (st : Store) (v : Vertex) (current : List Edge),
      (currentVertexEdges st v).1 = Except.ok current →
      List.Pairwise (fun a b => sameEdgeId a b = false) current →
      (diffVertexEdges st v).1 = Except.ok (edgeDiff (desiredEdges v) current) ∧
      (∀ e, e ∈ (edgeDiff (desiredEdges v) current).1 ↔
        e ∈ desiredEdges v ∧ ∀ c ∈ current, sameEdgeId e c = false) ∧
      (∀ e, e ∈ (edgeDiff (desiredEdges v) current).2.1 ↔
        e ∈ desiredEdges v ∧ ∃ c ∈ current, sameEdgeId e c = true ∧
          propsEqual e.Properties c.Properties = false) ∧
      (∀ e, e ∈ (edgeDiff (desiredEdges v) current).2.2 ↔
        e ∈ current ∧ ∀ d ∈ desiredEdges v, sameEdgeId e d = false) := by
  intro st v current h hnd
  refine ⟨?_, ?_, ?_, ?_⟩
  · unfold diffVertexEdges
    rcases hcv : currentVertexEdges st v with ⟨r, calls⟩
    rw [hcv] at h
    dsimp at h ⊢
    rw [h]
  · intro e
    simp only [edgeDiff, List.mem_filter, Option.isNone_iff_eq_none, List.find?_eq_none,
      Bool.not_eq_true]
  · intro e
    simp only [edgeDiff, List.mem_filter]
    constructor
    · rintro ⟨hm, hpred⟩
      refine ⟨hm, ?_⟩
      cases hf : current.find? (fun l2 => sameEdgeId e l2) with
      | none => rw [hf] at hpred; cases hpred
      | some l2 =>
        rw [hf] at hpred
        refine ⟨l2, List.mem_of_find?_eq_some hf, List.find?_some hf, ?_⟩
        simpa using hpred
    · rintro ⟨hm, c, hc, hs, hp⟩
      refine ⟨hm, ?_⟩
      cases hf : current.find? (fun l2 => sameEdgeId e l2) with
      | none =>
        rw [List.find?_eq_none] at hf
        exact absurd hs (hf c hc)
      | some l2 =>
        have hl2 : l2 = c :=
          sameEdgeId_unique hnd (List.mem_of_find?_eq_some hf) hc (List.find?_some hf) hs
        subst hl2
        simpa using hp
  · intro e
    simp only [edgeDiff, List.mem_filter, Option.isNone_iff_eq_none, List.find?_eq_none,
      Bool.not_eq_true]

/-- Witness for C1 on the concrete diff example: Current = {(A,B,ref,{p:1})},
Desired = {(A,B,ref,{p:2}), (A,C,ref,{})}. -/
theorem edgeDiffCharacterization_witness :
    (currentVertexEdges storeW vertexW).1 = Except.ok [edgeAB1] ∧
    (edgeAC ∈ (edgeDiff (desiredEdges vertexW) [edgeAB1]).1 ↔
      edgeAC ∈ desiredEdges vertexW ∧ ∀ c ∈ [edgeAB1], sameEdgeId edgeAC c = false) :=
  ⟨rfl, (edgeDiffCharacterization storeW vertexW [edgeAB1] rfl (by simp)).2.1 edgeAC⟩

/-- C6: for equal property maps (equal as Go maps: same entries in any
order, with distinct keys), both generators produce identical fragments
and identical binding sets. -/
theorem propertyQueryDeterminism :
    ∀ (vp1 vp2 : VProps) (ep1 ep2 : EProps),
      vp1.Perm vp2 → (vp1.map Prod.fst).Nodup →
      ep1.Perm ep2 → (ep1.map Prod.fst).Nodup →
      vertexPropertiesQuery vp1 = vertexPropertiesQuery vp2 ∧
      edgePropertiesQuery ep1 = edgePropertiesQuery ep2 :=
  fun _ _ _ _ hv hvnd he hend =>
    ⟨vertexPropertiesQuery_congr hv hvnd, edgePropertiesQuery_congr he hend⟩

/-- Witness for C6 at two-entry maps listed in both orders. -/
theorem propertyQueryDeterminism_witness :
    vertexPropertiesQuery [("b", [GValue.num 1]), ("a", [GValue.num 2])] =
      vertexPropertiesQuery [("a", [GValue.num 2]), ("b", [GValue.num 1])] ∧
    edgePropertiesQuery [("b", GValue.num 1), ("a", GValue.null)] =
      edgePropertiesQuery [("a", GValue.null), ("b", GValue.num 1)] :=
  propertyQueryDeterminism _ _ _ _
    (List.Perm.swap ("a", [GValue.num 2]) ("b", [GValue.num 1]) [])
    (by simp)
    (List.Perm.swap ("a", GValue.null) ("b", GValue.num 1) [])
    (by simp)

/-- C9: a transport error of the underlying client is surfaced unchanged
by `ServerBackend.Send`, and once the transport reports the disconnect the
stored connection flag reads Disconnected for subsequent requests. -/
theorem transportErrorDisconnects :
    ∀ (clientSend : String → GBind → Except GErr String) (q : String) (b : GBind)
      (msg : String) (s : SBState) (evs : List ConnEvent),
      clientSend q b = Except.error (GErr.transport msg) →
      sbSend clientSend q b = Except.error (GErr.transport msg) ∧
      sbIsConnected (applyConnEvents s (evs ++ [ConnEvent.disconnectedEv])) = false := by
  intro clientSend q b msg s evs h
  refine ⟨h, ?_⟩
  rw [applyConnEvents, List.foldl_append]
  rfl

/-- Witness for C9 with a failing client send and a connect-then-disconnect
event sequence. -/
theorem transportErrorDisconnects_witness :
    sbSend failingClientSend "g.V()" [] = Except.error (GErr.transport "timeout") ∧
    sbIsConnected
      (applyConnEvents initialSBState
        ([ConnEvent.connectedEv] ++ [ConnEvent.disconnectedEv])) = false :=
  transportErrorDisconnects failingClientSend "g.V()" [] "timeout" initialSBState
    [ConnEvent.connectedEv] rfl

/-- C3 counterexample: on the fallback path (disconnected), a GET request
is forwarded with method POST, not the original method — the upstream
echoes the method of the request it received, and the caller gets back
"POST" while the original method was "GET". -/
theorem fallbackForwarding_cex :
    appDisconnected.connected = false ∧
    getReq.method = "GET" ∧
    (handler appDisconnected getReq).body = "POST" ∧
    (handler appDisconnected getReq).body ≠ getReq.method := by decide

/-- C3 (amended): both fallback conditions (disconnected, or no handler
for the request key) route to `forward`; the forwarded request goes to
base ++ original path with the original headers and body but with method
fixed to POST; the upstream response's status, headers and body are copied
back unmodified. -/
theorem fallbackForwarding :
    ∀ (a : AppModel) (r : HttpReq),
      (a.connected = false → handler a r = forward a r r.body) ∧
      (∀ req, a.connected = true → a.parse r.body = Except.ok req →
        a.methods.lookup (req.context.operation ++ "_" ++ req.context.type) = none →
        handler a r = forward a r r.body) ∧
      (∀ body, buildForwardReq a.contrailAPIURL r body =
        { method := "POST", path := a.contrailAPIURL ++ r.path
          headers := r.headers, body := body }) ∧
      (∀ body resp, a.upstream (buildForwardReq a.contrailAPIURL r body) = Except.ok resp →
        forward a r body =
          { status := resp.status, headers := resp.headers, body := resp.body }) := by
  intro a r
  refine ⟨?_, ?_, fun _ => rfl, ?_⟩
  · intro h
    unfold handler
    rw [h]
    rfl
  · intro req hconn hparse hlook
    unfold handler
    rw [hconn, hparse]
    dsimp only
    rw [hlook]
    rfl
  · intro body resp hup
    unfold forward
    dsimp only
    rw [hup]

/-- Witness for C3 at the concrete disconnected gateway and GET request. -/
theorem fallbackForwarding_witness :
    handler appDisconnected getReq = forward appDisconnected getReq getReq.body :=
  (fallbackForwarding appDisconnected getReq).1 rfl

/-- C4: the claim is right and the code is wrong.  A map-shaped filter
value whose inner value is not a list makes the unchecked type assertion
`fv.([]interface{})` panic, so decoding `{"a": {"b": "x"}}` crashes
instead of dropping the value with a warning; the well-shaped cases and
the drop-on-other-shape case behave as claimed. -/
theorem filterDecode_panics_on_nested_nonList :
    unmarshalRequestFilters (JValue.obj [("a", JValue.obj [("b", JValue.str "x")])]) =
      GoResult.panic ∧
    unmarshalRequestFilters
        (JValue.obj [("a", JValue.obj [("b", JValue.arr [JValue.num 1, JValue.num 2])])]) =
      GoResult.ok [("b", [JValue.num 1, JValue.num 2])] ∧
    unmarshalRequestFilters (JValue.obj [("a", JValue.arr [JValue.num 1, JValue.num 2])]) =
      GoResult.ok [("a", [JValue.num 1, JValue.num 2])] ∧
    unmarshalRequestFilters (JValue.obj [("a", JValue.str "x")]) = GoResult.ok [] :=
  ⟨rfl, rfl, rfl, rfl⟩

/-- C5: with an empty label both `UpdateVertex` and `UpdateVertexProperty`
fail with the sentinel incomplete-vertex error and issue no store call;
with a non-empty label neither can return that error. -/
theorem incompleteVertexPrecondition :
    ∀ (st : Store) (v : Vertex) (name : String) (value : GValue),
      (v.Label = "" →
        UpdateVertex st v = (Except.error VErr.incomplete, []) ∧
        UpdateVertexProperty st v name value = (Except.error VErr.incomplete, [])) ∧
      (v.Label ≠ "" →
        (UpdateVertex st v).1 ≠ Except.error VErr.incomplete ∧
        (UpdateVertexProperty st v name value).1 ≠ Except.error VErr.incomplete) := by
  intro st v name value
  constructor
  · intro h
    constructor
    · unfold UpdateVertex
      rw [if_pos h]
    · unfold UpdateVertexProperty
      rw [if_pos h]
  · intro h
    constructor
    · unfold UpdateVertex
      rw [if_neg h]
      dsimp only
      cases st.send (updateVertexCall v).1 (updateVertexCall v).2 with
      | error e => simp
      | ok _ =>
        dsimp only
        obtain ⟨r, cs⟩ := updateVertexEdges st v
        cases r with
        | error e => simp
        | ok _ => simp
    · unfold UpdateVertexProperty
      rw [if_neg h]
      dsimp only
      cases st.send "g.V(_id).property(_name, _value).iterate()"
          [("_id", GValue.str v.ID), ("_name", GValue.str name), ("_value", value)] with
      | error e => simp
      | ok _ => simp

/-- Witness for C5 at an unlabelled and a labelled vertex. -/
theorem incompleteVertexPrecondition_witness :
    (UpdateVertex stubStore vertexNoLabel = (Except.error VErr.incomplete, []) ∧
     UpdateVertexProperty stubStore vertexNoLabel "name" (GValue.str "x") =
       (Except.error VErr.incomplete, [])) ∧
    (UpdateVertex stubStore vertexW).1 ≠ Except.error VErr.incomplete :=
  ⟨(incompleteVertexPrecondition stubStore vertexNoLabel "name" (GValue.str "x")).1 rfl,
   ((incompleteVertexPrecondition stubStore vertexW "name" (GValue.str "x")).2
     (by decide)).1⟩

/-- C7: the vertex generator iterates the property names in lexicographic
order (the iterated name list is sorted and a permutation of the keys) and
emits, for index i of property p, one piece bound to the synthetic name
(dots replaced by underscores, suffix i) with the list marker exactly when
p has more than one value; with collision-free synthetic names the binding
set is exactly one entry per (name, index). -/
theorem vertexFragmentShape :
    ∀ l : VProps,
      List.Sorted (fun a b => strLeB a b = true) (vertexSortedNames l) ∧
      (vertexSortedNames l).Perm (l.map Prod.fst) ∧
      (vertexPropertiesQuery l).1 = vertexFragmentSpec l ∧
      (((vertexBindingsSpec l).map Prod.fst).Nodup →
        (vertexPropertiesQuery l).2 = vertexBindingsSpec l) := by
  intro l
  refine ⟨List.sorted_insertionSort _ _, List.perm_insertionSort _ _, ?_, ?_⟩
  · rw [vertexPropertiesQuery_eq_spec]
  · intro hnd
    rw [vertexPropertiesQuery_eq_spec]
    exact (foldl_mapInsert_of_nodup _ [] hnd (by simp)).trans (List.nil_append _)

/-- Witness for C7 at a map with a dotted multi-valued property. -/
theorem vertexFragmentShape_witness :
    (vertexPropertiesQuery [("a.b", [GValue.num 1, GValue.num 2]), ("c", [GValue.num 3])]).2 =
      vertexBindingsSpec [("a.b", [GValue.num 1, GValue.num 2]), ("c", [GValue.num 3])] :=
  (vertexFragmentShape [("a.b", [GValue.num 1, GValue.num 2]), ("c", [GValue.num 3])]).2.2.2
    (by decide)

theorem edgeNonNull_lookup {l : EProps} (nd : (l.map Prod.fst).Nodup) {p : String}
    (hp : p ∈ edgeNonNullNames l) : ∃ v, l.lookup p = some v ∧ v ≠ GValue.null := by
  rcases List.mem_map.mp hp with ⟨kv, hkv, hfst⟩
  obtain ⟨k0, v0⟩ := kv
  obtain rfl : p = k0 := hfst.symm
  have hmem : (p, v0) ∈ l := List.mem_of_mem_filter hkv
  have hv0 : v0 ≠ GValue.null := by
    have := List.of_mem_filter hkv
    simpa using this
  exact ⟨v0, lookup_eq_of_mem_nodup hmem nd, hv0⟩

theorem mem_edgeSortedNames_iff {l : EProps} {p : String} :
    p ∈ edgeSortedNames l ↔ p ∈ edgeNonNullNames l :=
  (List.perm_insertionSort _ _).mem_iff

/-- C8 counterexample: two distinct property names that collide after
dot-to-underscore replacement share one binding slot, so the earlier
property's value never appears in the bindings. -/
theorem edgeNullExclusion_cex :
    ("a.b", GValue.bool true) ∈ collidingEProps ∧
    GValue.bool true ≠ GValue.null ∧
    eBindName "a.b" = "_a_b" ∧
    ("_a_b", GValue.bool true) ∉ (edgePropertiesQuery collidingEProps).2 := by decide

/-- C8 (amended): a null-valued edge property never appears in the
fragment or the bindings; every non-null property appears exactly once in
the iterated (sorted, duplicate-free) name list and hence in the fragment;
and, provided the dot-to-underscore synthetic names of the non-null
properties are pairwise distinct, the bindings hold exactly one entry per
non-null property. -/
theorem edgeNullExclusionAmended :
    ∀ l : EProps, (l.map Prod.fst).Nodup →
      (edgePropertiesQuery l).1 = edgeFragmentSpec l ∧
      (edgeSortedNames l).Nodup ∧
      (∀ p, (p, GValue.null) ∈ l → p ∉ edgeSortedNames l) ∧
      (∀ p v, (p, v) ∈ l → v ≠ GValue.null → p ∈ edgeSortedNames l) ∧
      (∀ kv ∈ (edgePropertiesQuery l).2, kv.2 ≠ GValue.null) ∧
      (((edgeBindingsSpec l).map Prod.fst).Nodup →
        (edgePropertiesQuery l).2 = edgeBindingsSpec l) := by
  intro l nd
  refine ⟨?_, ?_, ?_, ?_, ?_, ?_⟩
  · rw [edgePropertiesQuery_eq_spec]
  · have h1 : (edgeNonNullNames l).Nodup :=
      List.Nodup.sublist (List.Sublist.map Prod.fst (List.filter_sublist l)) nd
    exact ((List.perm_insertionSort _ _).nodup_iff).mpr h1
  · intro p hpn hsorted
    rcases edgeNonNull_lookup nd (mem_edgeSortedNames_iff.mp hsorted) with ⟨v, hv, hvn⟩
    have hnull := lookup_eq_of_mem_nodup hpn nd
    rw [hnull] at hv
    injection hv with hv
    exact hvn hv.symm
  · intro p v hmem hvn
    rw [mem_edgeSortedNames_iff]
    exact List.mem_map_of_mem Prod.fst (List.mem_filter.mpr ⟨hmem, by simpa using hvn⟩)
  · intro kv hkv
    rw [edgePropertiesQuery_eq_spec] at hkv
    rcases mem_foldl_mapInsert _ _ _ hkv with h1 | h1
    · cases h1
    · rcases List.mem_filterMap.mp h1 with ⟨p, hp, hmap⟩
      rcases edgeNonNull_lookup nd (mem_edgeSortedNames_iff.mp hp) with ⟨v, hv, hvn⟩
      rw [hv] at hmap
      injection hmap with hmap
      rw [← hmap]
      simpa using hvn
  · intro hnd
    rw [edgePropertiesQuery_eq_spec]
    exact (foldl_mapInsert_of_nodup _ [] hnd (by simp)).trans (List.nil_append _)

/-- Witness for C8 at a map with one null and one non-null property. -/
theorem edgeNullExclusionAmended_witness :
    (edgePropertiesQuery [("a", GValue.null), ("b", GValue.num 7)]).2 =
      edgeBindingsSpec [("a", GValue.null), ("b", GValue.num 7)] :=
  (edgeNullExclusionAmended [("a", GValue.null), ("b", GValue.num 7)]
    (by decide)).2.2.2.2.2 (by decide)

/-- C10 counterexample: `UpdateEdge` of an edge with one property carries
that property's binding besides the two endpoint ids, so its bindings do
not contain only the endpoint ids. -/
theorem edgeOpsIgnoreLabel_cex :
    ("_p", GValue.bool true) ∈ (updateEdgeCall edgePropW).2 ∧
    "_p" ∈ ((updateEdgeCall edgePropW).2).map Prod.fst ∧
    "_p" ≠ "_inv" ∧ "_p" ≠ "_outv" := by decide

/-- C10 (amended): `UpdateEdge` and `DeleteEdge` identify the target edge
solely by the endpoint id pair: `DeleteEdge` binds exactly the two ids,
`UpdateEdge` binds only the ids plus the edge-property bindings — neither
adds a label binding — the fixed script texts carry no label constraint,
and the modelled selection predicate of the shared step chain is
label-blind. -/
theorem edgeOpsIgnoreLabel :
    ∀ (st : Store) (e : Edge),
      (deleteEdgeCall e).2 = [("_inv", GValue.str e.InV), ("_outv", GValue.str e.OutV)] ∧
      (deleteEdgeCall e).1 = "g.V(_inv).bothE().where(otherV().hasId(_outv)).drop()" ∧
      strHasRun "g.V(_inv).bothE().where(otherV().hasId(_outv)).drop()" "_label" = false ∧
      strHasRun updateEdgeQueryHead "_label" = false ∧
      strHasRun updateEdgeQueryHead "hasLabel" = false ∧
      (UpdateEdge st e).2 = [updateEdgeCall e] ∧
      (DeleteEdge st e).2 = [deleteEdgeCall e] ∧
      (∀ k ∈ ((updateEdgeCall e).2).map Prod.fst,
        k = "_inv" ∨ k = "_outv" ∨
          k ∈ ((edgePropertiesQuery e.Properties).2).map Prod.fst) ∧
      (∀ (e0 : Edge) (lbl : String),
        endpointPairSelects e.InV e.OutV { e0 with Label := lbl } =
          endpointPairSelects e.InV e.OutV e0) := by
  intro st e
  refine ⟨rfl, rfl, by decide, by decide, by decide, ?_, ?_, ?_, fun _ _ => rfl⟩
  · unfold UpdateEdge
    dsimp only
    cases st.send (updateEdgeCall e).1 (updateEdgeCall e).2 <;> rfl
  · unfold DeleteEdge
    dsimp only
    cases st.send (deleteEdgeCall e).1 (deleteEdgeCall e).2 <;> rfl
  · intro k hk
    rcases keys_mapInsert_subset hk with h1 | h1
    · rcases keys_mapInsert_subset h1 with h2 | h2
      · exact Or.inr (Or.inr h2)
      · exact Or.inl h2
    · exact Or.inr (Or.inl h1)

/-- Witness for C10: instantiating the binding-key classification at the
concrete property binding key. -/
theorem edgeOpsIgnoreLabel_witness :
    "_p" = "_inv" ∨ "_p" = "_outv" ∨
      "_p" ∈ ((edgePropertiesQuery edgePropW.Properties).2).map Prod.fst :=
  (edgeOpsIgnoreLabel stubStore edgePropW).2.2.2.2.2.2.2.1 "_p" (by decide)

/-- C2: edge reconciliation applies all adds, then all updates, then all
removals, as one flat operation sequence; a pass with no failing
operation attempts every operation in that order, and the first failing
operation returns its error with exactly the previously applied
operations plus the failing attempt in the trace — nothing afterwards is
attempted and nothing already applied is undone. -/
theorem updateVertexEdgesSequencing :
    ∀ (st : Store) (v : Vertex) (ta tu tr : List Edge) (calls0 : List SendCall),
      diffVertexEdges st v = (Except.ok (ta, tu, tr), calls0) →
      updateVertexEdges st v =
        ((runOps st (ta.map EdgeOp.add ++ (tu.map EdgeOp.update ++ tr.map EdgeOp.remove))).1,
         calls0 ++
           (runOps st (ta.map EdgeOp.add ++ (tu.map EdgeOp.update ++ tr.map EdgeOp.remove))).2) ∧
      ((∀ op ∈ ta.map EdgeOp.add ++ (tu.map EdgeOp.update ++ tr.map EdgeOp.remove),
          opFails st op = none) →
        runOps st (ta.map EdgeOp.add ++ (tu.map EdgeOp.update ++ tr.map EdgeOp.remove)) =
          (Except.ok (),
           (ta.map EdgeOp.add ++ (tu.map EdgeOp.update ++ tr.map EdgeOp.remove)).map opCall)) ∧
      (∀ (pre : List EdgeOp) (op : EdgeOp) (post : List EdgeOp) (e : GErr),
        ta.map EdgeOp.add ++ (tu.map EdgeOp.update ++ tr.map EdgeOp.remove) =
          pre ++ op :: post →
        (∀ p ∈ pre, opFails st p = none) → opFails st op = some e →
        runOps st (ta.map EdgeOp.add ++ (tu.map EdgeOp.update ++ tr.map EdgeOp.remove)) =
          (Except.error e, (pre ++ [op]).map opCall)) := by
  intro st v ta tu tr calls0 hdiff
  refine ⟨?_, ?_, ?_⟩
  · unfold updateVertexEdges
    rw [hdiff]
    dsimp only
    rw [runEdgeLoop_eq_runOps st CreateEdge EdgeOp.add (fun e => rfl) ta,
        runEdgeLoop_eq_runOps st UpdateEdge EdgeOp.update (fun e => rfl) tu,
        runEdgeLoop_eq_runOps st DeleteEdge EdgeOp.remove (fun e => rfl) tr,
        runOps_append st (ta.map EdgeOp.add) (tu.map EdgeOp.update ++ tr.map EdgeOp.remove),
        runOps_append st (tu.map EdgeOp.update) (tr.map EdgeOp.remove)]
    rcases hA : runOps st (ta.map EdgeOp.add) with ⟨rA, cA⟩
    cases rA with
    | error e => rfl
    | ok uA =>
      rcases hU : runOps st (tu.map EdgeOp.update) with ⟨rU, cU⟩
      cases rU with
      | error e => dsimp only; rw [List.append_assoc]
      | ok uU =>
        rcases hR : runOps st (tr.map EdgeOp.remove) with ⟨rR, cR⟩
        dsimp only
        rw [List.append_assoc, List.append_assoc]
  · intro h
    exact runOps_ok st _ h
  · intro pre op post e hops hpre hop
    rw [hops]
    exact runOps_first_fail st pre op post e hpre hop

/-- Witness for C2 on the concrete diff example driven through a store
whose reads report the stored edge. -/
theorem updateVertexEdgesSequencing_witness :
    updateVertexEdges storeW vertexW =
      ((runOps storeW ([edgeAC].map EdgeOp.add ++ ([edgeAB2].map EdgeOp.update ++
          ([] : List Edge).map EdgeOp.remove))).1,
       [("g.V(_id).bothE()", [("_id", GValue.str "A")])] ++
         (runOps storeW ([edgeAC].map EdgeOp.add ++ ([edgeAB2].map EdgeOp.update ++
            ([] : List Edge).map EdgeOp.remove))).2) :=
  (updateVertexEdgesSequencing storeW vertexW [edgeAC] [edgeAB2] []
    [("g.V(_id).bothE()", [("_id", GValue.str "A")])] rfl).1
